import Mathlib

/-!
Verification of the JStream streaming JSON serializer (src/index.js).

The engine is a recursive generator (jsonGenerator / arrayGenerator /
objectGenerator in the source) driven by a pull-based Readable transport
(the _read method).  We embed the value universe consumed by the engine as
a mutually inductive type, and the whole serialization of a value as a
function from the value and the replacer to the ordered list of output
fragments, or to the fragments emitted before an error together with the
error message.  Because a function-form replacer may return arbitrary
values, the recursion of the source is not structurally bounded, so the
embedding takes an explicit fuel argument; a fuel of none models a run
that would need deeper recursion than the fuel allows (never reached by
any run whose fuel exceeds the nesting depth actually traversed).
-/

mutual
/-- Values consumed by the engine: JS primitives, arrays, plain objects,
promises (with their eventual outcome and a timing tag that the engine
never reads), readable streams in text mode and in object mode (with the
chunk list delivered before the terminal event, and the terminal event
itself: none for a clean end, some msg for an error), and objects bearing
a toJSON method (vhook result props: the method returns result, and props
are the object's other own enumerable properties). -/
inductive Value where
  | vnum (n : Int)
  | vnan
  | vstr (s : String)
  | vbool (b : Bool)
  | vnull
  | vundef
  | vfunc
  | varr (es : ValueList)
  | vobj (ps : PropList)
  | vpromiseOk (delay : Nat) (v : Value)
  | vpromiseErr (delay : Nat) (msg : String)
  | vtext (chunks : List String) (failure : Option String)
  | vitems (items : ValueList) (failure : Option String)
  | vhook (result : Value) (props : PropList)
/-- Ordered list of array elements. -/
inductive ValueList where
  | nil
  | cons (v : Value) (vs : ValueList)
/-- Ordered list of object properties (insertion order significant). -/
inductive PropList where
  | nil
  | cons (k : String) (v : Value) (ps : PropList)
end

deriving instance DecidableEq for Value, ValueList, PropList

/-- View of a ValueList as a plain list. -/
def ValueList.toL : ValueList → List Value
  | .nil => []
  | .cons v vs => v :: vs.toL

/-- Build a ValueList from a plain list. -/
def ValueList.ofL : List Value → ValueList
  | [] => .nil
  | v :: vs => .cons v (ValueList.ofL vs)

/-- View of a PropList as a plain association list. -/
def PropList.toL : PropList → List (String × Value)
  | .nil => []
  | .cons k v ps => (k, v) :: ps.toL

/-- Build a PropList from a plain association list. -/
def PropList.ofL : List (String × Value) → PropList
  | [] => .nil
  | kv :: ps => .cons kv.1 kv.2 (PropList.ofL ps)

/-- Lower-case hexadecimal digit, as produced by JSON.stringify escapes. -/
def hexDigit (n : Nat) : Char :=
  if n < 10 then Char.ofNat (48 + n) else Char.ofNat (87 + n)

/-- Escape of one character inside a JSON string literal, exactly as
JSON.stringify produces it (quote, backslash, the named control escapes,
a u00xx escape for the remaining control characters, and every other
character verbatim). -/
def escChar (c : Char) : String :=
  if c = '"' then "\\\""
  else if c = '\\' then "\\\\"
  else if c = '\x08' then "\\b"
  else if c = '\t' then "\\t"
  else if c = '\n' then "\\n"
  else if c = '\x0c' then "\\f"
  else if c = '\r' then "\\r"
  else if c.toNat < 32 then
    "\\u00" ++ String.singleton (hexDigit (c.toNat / 16))
            ++ String.singleton (hexDigit (c.toNat % 16))
  else String.singleton c

/-- Concatenation of a list of strings. -/
def joinAll : List String → String
  | [] => ""
  | s :: ss => s ++ joinAll ss

/-- Body of the JSON string literal for s (the escaped content without the
delimiting quotes); this is what the source computes per chunk with
JSON.stringify(x.toString()).slice(1, -1). -/
def escBody (s : String) : String :=
  joinAll (s.data.map escChar)

/-- Full JSON string literal for s, as JSON.stringify produces it. -/
def quoteJson (s : String) : String :=
  "\"" ++ escBody s ++ "\""

/-- Outcome of (a part of) a serialization run: the emitted fragments, or
the fragments emitted before an error together with the error message.
An error is terminal, so nothing follows it. -/
inductive SerOut where
  | ok (frags : List String)
  | err (frags : List String) (msg : String)
deriving DecidableEq

/-- Sequential composition of two run parts: once the left part errors the
right part never runs. -/
def SerOut.app : SerOut → SerOut → SerOut
  | .ok f1, .ok f2 => .ok (f1 ++ f2)
  | .ok f1, .err f2 m => .err (f1 ++ f2) m
  | .err f1 m, _ => .err f1 m

/-- Concatenation of the fragments of a successful run; none when the run
errored or ran out of fuel. -/
def optJoin : Option SerOut → Option String
  | some (.ok fs) => some (joinAll fs)
  | _ => none

/-- Replacer after the constructor's normalization: either a function or a
key array (the constructor replaces everything else by the identity
function). -/
inductive Replacer where
  | fnRep (g : Option String → Value → Value)
  | arrRep (ks : List String)

/-- Identity transform, the function the constructor substitutes for a
missing or invalid replacer argument. -/
def identityFn : Option String → Value → Value := fun _ v => v

/-- Normalized form of an absent replacer. -/
def identityRep : Replacer := .fnRep identityFn

/-- Replacer argument as passed by the caller, before normalization:
absent, a function, an array of keys, or one of the shapes that are
neither (a string, a number, a plain object). -/
inductive RawReplacer where
  | noRep
  | fnRep (g : Option String → Value → Value)
  | arrRep (ks : List String)
  | strRep (s : String)
  | numRep (n : Int)
  | objRep (ps : List (String × Value))

/-- Normalization performed by the JStream constructor: anything that is
not a function and not an array becomes the identity function. -/
def normalizeReplacer : RawReplacer → Replacer
  | .fnRep g => .fnRep g
  | .arrRep ks => .arrRep ks
  | _ => .fnRep identityFn

/-- Test used throughout the source: value is undefined or a function. -/
def absent : Value → Bool
  | .vundef => true
  | .vfunc => true
  | _ => false

/-- The toJSON helper of the source: call the value's toJSON method when it
has one, otherwise return the value unchanged. -/
def toJSON (v : Value) : Value :=
  match v with
  | .vhook r _ => r
  | _ => v

/-- Element mapping used for sequences: undefined and functions become
null (positions are never dropped). -/
def nullIfAbsent (v : Value) : Value :=
  if absent v then .vnull else v

/-- Own enumerable string-keyed properties of a value, as Object.assign
and for..in see them: the properties of a plain object; the properties of
a toJSON-bearing object together with its toJSON method (a function); the
index-keyed elements of an array; nothing for primitives (own properties
of boxed strings are not modelled, no claim reaches them). -/
def assignProps : Value → List (String × Value)
  | .vobj ps => ps.toL
  | .vhook _ ps => ps.toL ++ [("toJSON", .vfunc)]
  | .varr es => es.toL.mapIdx fun i x => (toString i, x)
  | _ => []

/-- Comma-joined serialization of a list of members, one step per member;
mirrors the element loops of arrayGenerator and objectGenerator: a comma
is emitted after a member only when another member follows, and once a
member errors nothing further is attempted. A step returning none
(insufficient fuel) makes the whole walk none. -/
def serSeq {α : Type} (step : α → Option SerOut) : List α → Option SerOut
  | [] => some (.ok [])
  | x :: xs =>
    (step x).bind fun o =>
      match o with
      | .err fs m => some (.err fs m)
      | .ok fs =>
        match xs with
        | [] => some (.ok fs)
        | _ :: _ => (serSeq step xs).map fun o2 => SerOut.app (.ok (fs ++ [","])) o2

/-- Per-element step of arrayGenerator's loop: recurse on toJSON of the
element. -/
def elemStep (rec : Value → Option SerOut) (x : Value) : Option SerOut :=
  rec (toJSON x)

/-- Per-member step of objectGenerator's loop: emit the raw quoted key
(the source does not escape keys) and a colon, then recurse on toJSON of
the member value. -/
def pairStep (rec : Value → Option SerOut) (kx : String × Value) : Option SerOut :=
  (rec (toJSON kx.2)).map fun o => SerOut.app (.ok ["\"" ++ kx.1 ++ "\":"]) o

/-- Working element list computed by arrayGenerator before its loop: under
a function replacer, the replacer is first called with (undefined, whole
array) and its result is mapped element-wise through the replacer with the
stringified index as key, absent or function results becoming null; under
an array replacer, elements pass through with absent ones becoming null.
The none outcome models the TypeError thrown when the function replacer's
root call returns a non-array (its .map is not a function). -/
def seqWorking (g : Option String → Value → Value) (es : ValueList) : Option (List Value) :=
  match g none (.varr es) with
  | .varr ws => some (ws.toL.mapIdx fun i x => nullIfAbsent (g (some (toString i)) x))
  | _ => none

/-- Embedding of arrayGenerator: compute the working list, then an opening
bracket, the comma-joined elements, a closing bracket. -/
def arrayGenerator (rec : Value → Option SerOut) (r : Replacer) (es : ValueList) :
    Option SerOut :=
  match r with
  | .fnRep g =>
    match seqWorking g es with
    | none => some (.err [] "TypeError: arr.map is not a function")
    | some arr =>
      (serSeq (elemStep rec) arr).map fun o =>
        SerOut.app (.ok ["["]) (SerOut.app o (.ok ["]"]))
  | .arrRep _ =>
    (serSeq (elemStep rec) (es.toL.map nullIfAbsent)).map fun o =>
      SerOut.app (.ok ["["]) (SerOut.app o (.ok ["]"]))

/-- Working member list computed by objectGenerator before its loop: under
a function replacer, a shallow copy of the replacer's root-call result is
taken and each of its members is replaced by the replacer's result for
(key, value), absent and function results deleting the key; under an array
replacer, the value's own members are kept when the key is listed and the
raw value is neither undefined nor a function, in the value's own key
order. -/
def keyedWorking (r : Replacer) (value : Value) : List (String × Value) :=
  match r with
  | .fnRep g =>
    (assignProps (g none value)).filterMap fun kx =>
      let y := g (some kx.1) kx.2
      if absent y then none else some (kx.1, y)
  | .arrRep ks =>
    (assignProps value).filter fun kx => !absent kx.2 && ks.contains kx.1

/-- Embedding of objectGenerator: an opening brace, the comma-joined
members of the working list (each a raw quoted key, a colon, and the
recursive serialization of toJSON of the member value), a closing brace. -/
def objectGenerator (rec : Value → Option SerOut) (r : Replacer) (value : Value) :
    Option SerOut :=
  (serSeq (pairStep rec) (keyedWorking r value)).map fun o =>
    SerOut.app (.ok ["\x7b"]) (SerOut.app o (.ok ["\x7d"]))

/-- Output of a text-mode readable source: an opening quote, each chunk
escaped with its delimiting quotes stripped (JSON.stringify(chunk).slice(1, -1)
in the source), then on a clean end the closing quote, and on a source
error the error with no closing quote. -/
def textOutput (chunks : List String) (failure : Option String) : SerOut :=
  match failure with
  | none => .ok ("\"" :: chunks.map escBody ++ ["\""])
  | some m => .err ("\"" :: chunks.map escBody) m

/-- Per-item step of the object-mode adapter: sequence semantics map an
undefined or function item to null, then the item is serialized through
the full pipeline (toJSON, classification, the same replacer). -/
def itemStep (rec : Value → Option SerOut) (x : Value) : Option SerOut :=
  rec (toJSON (nullIfAbsent x))

/-- Modelled from the spec: the ObjectReader class (src/object.reader.js is
required by src/index.js but is not part of the sources), per section 4.4
of the spec: an object-mode source is serialized as a bracketed,
comma-joined sequence of the serializations of its items in arrival order,
each item independently passed through toJSON resolution, classification
and the same replacer; on the source's end signal the closing bracket is
emitted; on its error signal the whole run errors with no closing
bracket. -/
def itemsOutput (rec : Value → Option SerOut) (items : ValueList)
    (failure : Option String) : Option SerOut :=
  (serSeq (itemStep rec) items.toL).map fun o =>
    SerOut.app (.ok ["["])
      (SerOut.app o (match failure with
        | none => .ok ["]"]
        | some m => .err [] m))

/-- Embedding of the recursive generator jsonGenerator together with the
pull loop of _read: dispatch on the shape of the value exactly as the
source does (array, promise, readable stream in object or text mode, other
non-null object, primitive fallthrough to JSON.stringify).  A resolved
promise resumes by serializing the resolved value directly (the source
does not apply toJSON to it); a rejected promise errors.  The fragment for
an undefined or function value is the empty string pushed by _read when
the generator yields undefined. -/
def jsonGenerator : Nat → Replacer → Value → Option SerOut
  | 0, _, _ => none
  | fuel + 1, r, v =>
    match v with
    | .varr es => arrayGenerator (jsonGenerator fuel r) r es
    | .vpromiseOk _ x => jsonGenerator fuel r x
    | .vpromiseErr _ m => some (.err [] m)
    | .vtext chunks failure => some (textOutput chunks failure)
    | .vitems items failure => itemsOutput (jsonGenerator fuel r) items failure
    | .vobj ps => objectGenerator (jsonGenerator fuel r) r (.vobj ps)
    | .vhook h ps => objectGenerator (jsonGenerator fuel r) r (.vhook h ps)
    | .vnum n => some (.ok [toString n])
    | .vnan => some (.ok ["null"])
    | .vstr s => some (.ok [quoteJson s])
    | .vbool b => some (.ok [if b then "true" else "false"])
    | .vnull => some (.ok ["null"])
    | .vundef => some (.ok [""])
    | .vfunc => some (.ok [""])

/-- Whole-stream run as the JStream constructor sets it up: normalize the
replacer argument and start the generator on toJSON of the root. -/
def jstreamOutput (fuel : Nat) (v : Value) (raw : RawReplacer) : Option SerOut :=
  jsonGenerator fuel (normalizeReplacer raw) (toJSON v)

/-- Signals observable on the outbound transport: a fragment delivery, the
end-of-output signal (push null), the error signal. -/
inductive OutEvent where
  | frag (s : String)
  | endOfOutput
  | errorSignal (msg : String)
deriving DecidableEq

/-- Transport-level trace of a run: every fragment in order, then exactly
one terminal signal (end-of-output after a successful run, the error
signal after a failed one). -/
def eventsOf : SerOut → List OutEvent
  | .ok fs => fs.map .frag ++ [.endOfOutput]
  | .err fs m => fs.map .frag ++ [.errorSignal m]

/-- Trace of a whole run of the generator. -/
def eventsF (fuel : Nat) (r : Replacer) (v : Value) : Option (List OutEvent) :=
  (jsonGenerator fuel r v).map eventsOf

/-- Test for the error signal. -/
def isErrorEv : OutEvent → Bool
  | .errorSignal _ => true
  | _ => false

/-- Test for the end-of-output signal. -/
def isEndEv : OutEvent → Bool
  | .endOfOutput => true
  | _ => false

/-- Option-valued map over a list: some when every element maps to some,
propagating none. -/
def mapO {A B : Type} (g : A → Option B) : List A → Option (List B)
  | [] => some []
  | x :: xs => (g x).bind fun y => (mapO g xs).map fun ys => y :: ys

/-- Comma-separated join of member texts. -/
def sepJoin : List String → String
  | [] => ""
  | [s] => s
  | s :: t :: ss => s ++ "," ++ sepJoin (t :: ss)

/-- Specification-side model of standard JSON.stringify (no replacer, no
indent) on JSON-representable values, for comparison with the engine's
output: scalars as their JSON text, arrays bracketed and comma-joined,
objects braced with each key escaped and quoted.  The same fuel discipline
as the engine is used so the two sides can be compared at equal fuel;
undefined, functions, and the asynchronous shapes that standard
JSON.stringify does not receive are outside the modelled domain and map to
none. -/
def stringifyF : Nat → Value → Option String
  | 0, _ => none
  | _ + 1, .vnull => some "null"
  | _ + 1, .vnan => some "null"
  | _ + 1, .vnum n => some (toString n)
  | _ + 1, .vbool b => some (if b then "true" else "false")
  | _ + 1, .vstr s => some (quoteJson s)
  | fuel + 1, .varr es =>
    (mapO (stringifyF fuel) es.toL).map fun elems => "[" ++ sepJoin elems ++ "]"
  | fuel + 1, .vobj ps =>
    (mapO (fun kx : String × Value => (stringifyF fuel kx.2).map fun s => quoteJson kx.1 ++ ":" ++ s) ps.toL).map
      fun mems => "\x7b" ++ sepJoin mems ++ "\x7d"
  | _ + 1, _ => none

/-- Values built only from plain objects, arrays, strings, numbers,
booleans and null, to the depth the fuel covers (the fuel discipline
mirrors the engine's, so a true result guarantees the engine finishes at
the same fuel). -/
def jsonRepresentable : Nat → Value → Bool
  | 0, _ => false
  | _ + 1, .vnum _ => true
  | _ + 1, .vnan => true
  | _ + 1, .vstr _ => true
  | _ + 1, .vbool _ => true
  | _ + 1, .vnull => true
  | fuel + 1, .varr es => es.toL.all (jsonRepresentable fuel)
  | fuel + 1, .vobj ps => ps.toL.all fun kx => jsonRepresentable fuel kx.2
  | _ + 1, _ => false

/-- Characters that pass through a JSON string literal unescaped. -/
def charEscFree (c : Char) : Bool :=
  !(c = '"' || c = '\\' || decide (c.toNat < 32))

/-- Strings whose JSON escape is the string itself. -/
def strEscFree (s : String) : Bool :=
  s.data.all charEscFree

/-- Every object key in the value, at every depth, contains no character
that JSON escaping would rewrite. -/
def keysEscapeFree : Nat → Value → Bool
  | 0, _ => true
  | fuel + 1, .varr es => es.toL.all (keysEscapeFree fuel)
  | fuel + 1, .vobj ps => ps.toL.all fun kx => strEscFree kx.1 && keysEscapeFree fuel kx.2
  | _ + 1, _ => true

mutual
/-- Specification-side key-allowlist filter, from the spec's words: a
Keyed value retains exactly the keys present in the allowlist whose raw
value is neither absent nor a function, in the original key order, the
same filter recursing at every nested Keyed level (also inside promise
resolutions, stream items, and toJSON results); Sequence elements pass
through unfiltered. -/
def allowFilter (ks : List String) : Value → Value
  | .varr es => .varr (allowFilterL ks es)
  | .vobj ps => .vobj (allowFilterP ks ps)
  | .vpromiseOk d v => .vpromiseOk d (allowFilter ks v)
  | .vitems items failure => .vitems (allowFilterL ks items) failure
  | .vhook h ps => .vhook (allowFilter ks h) (allowFilterP ks ps)
  | v => v
/-- Element-wise allowlist filter of a sequence (elements recursed, none
dropped). -/
def allowFilterL (ks : List String) : ValueList → ValueList
  | .nil => .nil
  | .cons v vs => .cons (allowFilter ks v) (allowFilterL ks vs)
/-- Member-wise allowlist filter of a keyed value. -/
def allowFilterP (ks : List String) : PropList → PropList
  | .nil => .nil
  | .cons k v ps =>
    if !absent v && ks.contains k then .cons k (allowFilter ks v) (allowFilterP ks ps)
    else allowFilterP ks ps
end

mutual
/-- Erase the timing tags of every pending value in the tree: two values
equal after stripDelay are structurally equal roots whose pending members
merely resolve at different speeds. -/
def stripDelay : Value → Value
  | .varr es => .varr (stripDelayL es)
  | .vobj ps => .vobj (stripDelayP ps)
  | .vpromiseOk _ v => .vpromiseOk 0 (stripDelay v)
  | .vpromiseErr _ m => .vpromiseErr 0 m
  | .vitems items failure => .vitems (stripDelayL items) failure
  | .vhook h ps => .vhook (stripDelay h) (stripDelayP ps)
  | v => v
/-- Element-wise timing erasure. -/
def stripDelayL : ValueList → ValueList
  | .nil => .nil
  | .cons v vs => .cons (stripDelay v) (stripDelayL vs)
/-- Member-wise timing erasure. -/
def stripDelayP : PropList → PropList
  | .nil => .nil
  | .cons k v ps => .cons k (stripDelay v) (stripDelayP ps)
end

/-- Transform functions that cannot observe timing: they commute with the
erasure of timing tags.  Every replacer a JS caller can write is of this
kind, since resolution timing is not data; an array replacer trivially
qualifies. -/
def replacerTimeBlind : Replacer → Prop
  | .fnRep g => ∀ k v, g k (stripDelay v) = stripDelay (g k v)
  | .arrRep _ => True

/-- Specification-side member computation for a Keyed value under a
transform function, from the spec's words (section 4.2): call once with
(absent key, whole value) to obtain a working copy, then once per member
with (key, member value); an absent or function result omits the key. -/
def applyKeyedSpec (g : Option String → Value → Value) (value : Value) :
    List (String × Value) :=
  (assignProps (g none value)).filterMap fun kx =>
    let y := g (some kx.1) kx.2
    if absent y then none else some (kx.1, y)

/-- Specification-side element computation for a Sequence under a
transform function, from the spec's words (section 4.2): call once with
(absent key, whole sequence), the result must itself be indexable and
becomes the working sequence; then call once per element with (stringified
index, element), an absent or function result mapping to null. -/
def applySequenceSpec (g : Option String → Value → Value) (es : ValueList) :
    Option (List Value) :=
  match g none (.varr es) with
  | .varr ws => some (ws.toL.mapIdx fun i x => nullIfAbsent (g (some (toString i)) x))
  | _ => none

/-- Doubling replacer of the spec's examples: the root call (absent key)
returns the value unchanged, every member call doubles the member (the
spec's example k ? v * 2 : v, applied to numeric members; a non-numeric
member would coerce to NaN). -/
def doubleFn : Option String → Value → Value
  | none, v => v
  | some _, .vnum n => .vnum (2 * n)
  | some _, _ => .vnan

/-- Transform replacer mapping undefined members to the number 42 and
leaving everything else unchanged; used to exercise the transform-function
path on absent values. -/
def undefTo42 : Option String → Value → Value
  | some _, .vundef => .vnum 42
  | _, v => v

/-- Transform replacer whose root call substitutes a fixed object for the
whole value, while member calls leave members unchanged. -/
def rootSwapObj : Option String → Value → Value
  | none, _ => .vobj (.cons "z" (.vnum 9) .nil)
  | some _, v => v

/-- Transform replacer whose root call substitutes a fixed one-element
array for the whole value, while member calls leave members unchanged. -/
def rootSwapArr : Option String → Value → Value
  | none, _ => .varr (.cons (.vnum 7) .nil)
  | some _, v => v

/-- Transform replacer recording each member's key: member calls replace
the member by its own key as a string, the root call is the identity. -/
def recordKeyFn : Option String → Value → Value
  | none, v => v
  | some k, _ => .vstr k

/-! Helper lemmas. -/

theorem String.append_empty_right (s : String) : s ++ "" = s := by
  apply String.ext
  simp [String.data_append]

theorem String.append_assoc4 (a b c : String) : a ++ b ++ c = a ++ (b ++ c) := by
  apply String.ext
  simp [String.data_append]

theorem joinAll_append (a b : List String) : joinAll (a ++ b) = joinAll a ++ joinAll b := by
  induction a with
  | nil =>
    apply String.ext
    simp [joinAll, String.data_append]
  | cons s ss ih =>
    simp [joinAll, ih, String.append_assoc4]

theorem optJoin_eq_some {o : Option SerOut} {t : String} (h : optJoin o = some t) :
    ∃ fs, o = some (.ok fs) ∧ joinAll fs = t := by
  match o with
  | none => simp [optJoin] at h
  | some (.ok fs) =>
    refine ⟨fs, rfl, ?_⟩
    simpa [optJoin] using h
  | some (.err fs m) => simp [optJoin] at h

theorem optJoin_brackets (o : Option SerOut) (l rt : String) :
    optJoin (o.map fun x => SerOut.app (.ok [l]) (SerOut.app x (.ok [rt]))) =
      (optJoin o).map fun s => l ++ s ++ rt := by
  match o with
  | none => simp [optJoin]
  | some (.ok fs) =>
    simp [optJoin, SerOut.app, joinAll, joinAll_append, String.append_empty_right,
      String.append_assoc4]
  | some (.err fs m) => simp [optJoin, SerOut.app]

theorem optJoin_key (o : Option SerOut) (kf : String) :
    optJoin (o.map fun x => SerOut.app (.ok [kf]) x) = (optJoin o).map fun s => kf ++ s := by
  match o with
  | none => simp [optJoin]
  | some (.ok fs) => simp [optJoin, SerOut.app, joinAll]
  | some (.err fs m) => simp [optJoin, SerOut.app]

theorem serSeq_cons {α : Type} (step : α → Option SerOut) (x : α) (xs : List α) :
    serSeq step (x :: xs) =
      (step x).bind fun o =>
        match o with
        | .err fs m => some (.err fs m)
        | .ok fs =>
          match xs with
          | [] => some (.ok fs)
          | _ :: _ => (serSeq step xs).map fun o2 => SerOut.app (.ok (fs ++ [","])) o2 := by
  rfl

theorem mapO_cons {A B : Type} (g : A → Option B) (x : A) (xs : List A) :
    mapO g (x :: xs) = (g x).bind fun y => (mapO g xs).map fun ys => y :: ys := rfl

theorem serSeq_join {α : Type} (step : α → Option SerOut) (g : α → Option String) :
    ∀ l : List α, (∀ x ∈ l, optJoin (step x) = g x) →
      optJoin (serSeq step l) = (mapO g l).map sepJoin := by
  intro l
  induction l with
  | nil => intro _; simp [serSeq, optJoin, joinAll, sepJoin, mapO]
  | cons x xs ih =>
    intro h
    have hx : optJoin (step x) = g x := h x (List.mem_cons_self x xs)
    have hxs : ∀ y ∈ xs, optJoin (step y) = g y := fun y hy => h y (List.mem_cons_of_mem x hy)
    rw [serSeq_cons]
    match hsx : step x with
    | none =>
      have : g x = none := by rw [← hx, hsx]; rfl
      simp [optJoin, mapO, this]
    | some (.err fs m) =>
      have : g x = none := by rw [← hx, hsx]; rfl
      simp [optJoin, mapO, this]
    | some (.ok fs) =>
      have hgx : g x = some (joinAll fs) := by rw [← hx, hsx]; rfl
      match xs with
      | [] => simp [optJoin, mapO, hgx, sepJoin]
      | y :: ys =>
        have ihy := ih hxs
        match hrest : mapO g (y :: ys) with
        | none =>
          rw [hrest] at ihy
          match hs : serSeq step (y :: ys) with
          | none =>
            rw [mapO_cons, hgx]
            simp [optJoin, hrest]
          | some (.err fs2 m2) =>
            rw [mapO_cons, hgx]
            simp [optJoin, SerOut.app, hrest]
          | some (.ok fs2) =>
            rw [hs] at ihy
            simp [optJoin] at ihy
        | some ss =>
          rw [hrest] at ihy
          obtain ⟨fs2, hs2, hjoin⟩ := optJoin_eq_some (by simpa using ihy)
          have hnonempty : ∃ t ts, ss = t :: ts := by
            rw [show mapO g (y :: ys) = (g y).bind fun t => (mapO g ys).map fun ts => t :: ts from rfl] at hrest
            match hgy : g y with
            | none => rw [hgy] at hrest; simp at hrest
            | some t =>
              rw [hgy] at hrest
              match hys : mapO g ys with
              | none => rw [hys] at hrest; simp at hrest
              | some ts =>
                rw [hys] at hrest
                simp at hrest
                exact ⟨t, ts, hrest.symm⟩
          obtain ⟨t, ts, hss⟩ := hnonempty
          subst hss
          rw [hs2, mapO_cons, hgx]
          simp only [Option.bind_some, hrest, Option.map_some, optJoin, SerOut.app]
          simp [joinAll_append, joinAll, sepJoin, hjoin,
            String.append_empty_right, String.append_assoc4]

theorem serSeq_map {α β : Type} (step : β → Option SerOut) (φ : α → β) :
    ∀ l : List α, serSeq step (l.map φ) = serSeq (fun x => step (φ x)) l := by
  intro l
  induction l with
  | nil => rfl
  | cons x xs ih =>
    rw [List.map_cons, serSeq_cons, serSeq_cons]
    match step (φ x) with
    | none => rfl
    | some (.err fs m) => rfl
    | some (.ok fs) =>
      match xs with
      | [] => rfl
      | y :: ys =>
        have ih2 : serSeq step (φ y :: List.map φ ys) = serSeq (fun x => step (φ x)) (y :: ys) := by
          rw [← List.map_cons]; exact ih
        simp only [List.map_cons, Option.bind_some, ih2]

theorem serSeq_congr {α : Type} (step1 step2 : α → Option SerOut) :
    ∀ l : List α, (∀ x ∈ l, step1 x = step2 x) → serSeq step1 l = serSeq step2 l := by
  intro l
  induction l with
  | nil => intro _; rfl
  | cons x xs ih =>
    intro h
    rw [serSeq_cons, serSeq_cons, h x (List.mem_cons_self x xs)]
    match step2 x with
    | none => rfl
    | some (.err fs m) => rfl
    | some (.ok fs) =>
      match xs with
      | [] => rfl
      | y :: ys =>
        simp only [Option.bind_some]
        rw [ih (fun z hz => h z (List.mem_cons_of_mem x hz))]

theorem serSeq_stop {α : Type} (step : α → Option SerOut) (x : α)
    (hx : step x = none ∨ ∃ fs m, step x = some (.err fs m)) :
    ∀ (pre r1 r2 : List α),
      serSeq step (pre ++ x :: r1) = serSeq step (pre ++ x :: r2) := by
  intro pre
  induction pre with
  | nil =>
    intro r1 r2
    rw [List.nil_append, List.nil_append, serSeq_cons, serSeq_cons]
    rcases hx with h | ⟨fs, m, h⟩ <;> rw [h] <;> rfl
  | cons a pre ih =>
    intro r1 r2
    rw [List.cons_append, List.cons_append, serSeq_cons, serSeq_cons]
    match step a with
    | none => rfl
    | some (.err fs m) => rfl
    | some (.ok fs) =>
      match h1 : pre ++ x :: r1, h2 : pre ++ x :: r2 with
      | [], _ => exact absurd h1 (List.append_ne_nil_of_right_ne_nil pre (List.cons_ne_nil x r1))
      | _, [] => exact absurd h2 (List.append_ne_nil_of_right_ne_nil pre (List.cons_ne_nil x r2))
      | b :: bs, c :: cs =>
        rw [← h1, ← h2, ih r1 r2, h1, h2]

theorem mapIdx_const {α β : Type} :
    ∀ (l : List α) (f : Nat → α → β) (g : α → β), (∀ i x, f i x = g x) →
      l.mapIdx f = l.map g := by
  intro l
  induction l with
  | nil => intro f g _; rfl
  | cons x xs ih =>
    intro f g h
    rw [List.mapIdx_cons, List.map_cons, h 0 x,
      ih (fun i => f (i + 1)) g (fun i y => h (i + 1) y)]

theorem mapIdx_comm {α α2 β γ : Type} :
    ∀ (l : List α) (φ : α → α2) (f : Nat → α2 → β) (g : Nat → α → γ) (ψ : γ → β),
      (∀ i x, f i (φ x) = ψ (g i x)) →
      (l.map φ).mapIdx f = (l.mapIdx g).map ψ := by
  intro l
  induction l with
  | nil => intro _ _ _ _ _; rfl
  | cons x xs ih =>
    intro φ f g ψ h
    rw [List.map_cons, List.mapIdx_cons, List.mapIdx_cons, List.map_cons, h 0 x,
      ih φ (fun i => f (i + 1)) (fun i => g (i + 1)) ψ (fun i y => h (i + 1) y)]

theorem valueList_toL_ofL : ∀ l : List Value, (ValueList.ofL l).toL = l := by
  intro l
  induction l with
  | nil => rfl
  | cons v vs ih => simp [ValueList.ofL, ValueList.toL, ih]

theorem propList_toL_ofL : ∀ l : List (String × Value), (PropList.ofL l).toL = l := by
  intro l
  induction l with
  | nil => rfl
  | cons kv ps ih => simp [PropList.ofL, PropList.toL, ih]

theorem escChar_escFree {c : Char} (h : charEscFree c = true) :
    escChar c = String.singleton c := by
  simp only [charEscFree, Bool.not_eq_true', Bool.or_eq_false_iff,
    decide_eq_false_iff_not] at h
  obtain ⟨⟨h1, h2⟩, h3⟩ := h
  have h1' : c ≠ '"' := by simpa using h1
  have h2' : c ≠ '\\' := by simpa using h2
  have n8 : c ≠ '\x08' := by intro hc; subst hc; exact h3 (by decide)
  have nt : c ≠ '\t' := by intro hc; subst hc; exact h3 (by decide)
  have nn : c ≠ '\n' := by intro hc; subst hc; exact h3 (by decide)
  have nf : c ≠ '\x0c' := by intro hc; subst hc; exact h3 (by decide)
  have nr : c ≠ '\r' := by intro hc; subst hc; exact h3 (by decide)
  simp [escChar, h1', h2', n8, nt, nn, nf, nr, h3]

theorem joinAll_singletons : ∀ cs : List Char, joinAll (cs.map String.singleton) = String.mk cs := by
  intro cs
  induction cs with
  | nil => rfl
  | cons c cs ih =>
    rw [List.map_cons, joinAll, ih]
    apply String.ext
    simp [String.singleton, String.data_append]

theorem escBody_escFree {s : String} (h : strEscFree s = true) : escBody s = s := by
  rw [escBody]
  have : s.data.map escChar = s.data.map String.singleton := by
    apply List.map_congr_left
    intro c hc
    exact escChar_escFree (List.all_eq_true.mp h c hc)
  rw [this, joinAll_singletons]

theorem escBody_append (a b : String) : escBody (a ++ b) = escBody a ++ escBody b := by
  rw [escBody, escBody, escBody, String.data_append, List.map_append, joinAll_append]

theorem quoteJson_escFree {s : String} (h : strEscFree s = true) :
    quoteJson s = "\"" ++ s ++ "\"" := by
  rw [quoteJson, escBody_escFree h]

theorem joinAll_wrap (l : List String) (a b : String) :
    joinAll (a :: l ++ [b]) = a ++ joinAll l ++ b := by
  rw [show a :: l ++ [b] = [a] ++ (l ++ [b]) from rfl, joinAll_append, joinAll_append]
  simp [joinAll, String.append_empty_right, String.append_assoc4]

theorem escBody_joinAll : ∀ chunks : List String,
    escBody (joinAll chunks) = joinAll (chunks.map escBody) := by
  intro chunks
  induction chunks with
  | nil => rfl
  | cons c cs ih => rw [joinAll, escBody_append, ih, List.map_cons, joinAll]

theorem seqWorking_identity (es : ValueList) :
    seqWorking identityFn es = some (es.toL.map nullIfAbsent) := by
  show some (es.toL.mapIdx fun i x => nullIfAbsent (identityFn (some (toString i)) x)) = _
  rw [mapIdx_const es.toL (fun i x => nullIfAbsent (identityFn (some (toString i)) x))
    nullIfAbsent (fun i x => rfl)]

theorem arrayGenerator_identity (rec : Value → Option SerOut) (es : ValueList) :
    arrayGenerator rec identityRep es =
      (serSeq (elemStep rec) (es.toL.map nullIfAbsent)).map fun o =>
        SerOut.app (.ok ["["]) (SerOut.app o (.ok ["]"])) := by
  show (match seqWorking identityFn es with
    | none => some (SerOut.err [] "TypeError: arr.map is not a function")
    | some arr =>
      (serSeq (elemStep rec) arr).map fun o =>
        SerOut.app (.ok ["["]) (SerOut.app o (.ok ["]"]))) = _
  rw [seqWorking_identity]

theorem arrayGenerator_arrRep (rec : Value → Option SerOut) (ks : List String) (es : ValueList) :
    arrayGenerator rec (.arrRep ks) es =
      (serSeq (elemStep rec) (es.toL.map nullIfAbsent)).map fun o =>
        SerOut.app (.ok ["["]) (SerOut.app o (.ok ["]"])) := rfl

theorem keyedWorking_identity (value : Value) :
    keyedWorking identityRep value =
      (assignProps value).filterMap fun kx => if absent kx.2 then none else some kx := rfl

/-- C3: a TextSource embedded anywhere in the tree is serialized as exactly
one JSON string literal: an opening quote fragment, each chunk forwarded
JSON-escaped with its delimiting quotes stripped, a closing quote fragment
after the source ends; and the concatenation equals the JSON string
literal whose content is the escaped concatenation of the chunks, with the
chunks a quote-and-newline example as in the spec. -/
theorem claim_C3 :
    (∀ (fuel : Nat) (r : Replacer) (chunks : List String),
        jsonGenerator (fuel + 1) r (.vtext chunks none) =
          some (.ok ("\"" :: chunks.map escBody ++ ["\""])) ∧
        optJoin (jsonGenerator (fuel + 1) r (.vtext chunks none)) =
          some (quoteJson (joinAll chunks))) ∧
      optJoin (jstreamOutput 2 (.vtext ["a\"b", "\nc"] none) .noRep) =
        some "\"a\\\"b\\nc\"" := by
  refine ⟨fun fuel r chunks => ⟨rfl, ?_⟩, by decide⟩
  show some (joinAll ("\"" :: chunks.map escBody ++ ["\""])) = _
  rw [quoteJson, escBody_joinAll, joinAll_wrap]

/-- C2 counterexample: a PendingValue resolving to a value bearing a
toJSON hook does not serialize as the hook's result: the engine skips the
hook on the resolved value, treats it as a plain object whose toJSON
member is a function and therefore dropped, and emits an empty object
rather than the hook's result 5. -/
theorem claim_C2_counterexample :
    optJoin (jstreamOutput 5 (.vpromiseOk 0 (.vhook (.vnum 5) .nil)) .noRep) = some "\x7b\x7d" ∧
    optJoin (jstreamOutput 5 (.vpromiseOk 0 (.vhook (.vnum 5) .nil)) .noRep) ≠
      optJoin (jstreamOutput 5 (.vnum 5) .noRep) := by
  constructor
  · decide
  · decide

/-- C2 amended: a PendingValue that resolves successfully resumes by
serializing the resolved value in place, re-entering the generator's
classification directly without applying the resolved value's own toJSON
hook (hooks are still applied to members reached below it); in particular
a PendingValue resolving to the plain string abc yields fragments
concatenating to the quoted string abc, while one resolving to a
hook-bearing value serializes the value as a plain object, not as the
hook's result. -/
theorem claim_C2_amended :
    (∀ (fuel : Nat) (r : Replacer) (d : Nat) (x : Value),
        jsonGenerator (fuel + 1) r (.vpromiseOk d x) = jsonGenerator fuel r x) ∧
      optJoin (jstreamOutput 3 (.vpromiseOk 0 (.vstr "abc")) .noRep) = some "\"abc\"" ∧
      optJoin (jstreamOutput 5 (.vpromiseOk 0 (.vhook (.vnum 5) .nil)) .noRep) =
        some "\x7b\x7d" := by
  refine ⟨fun fuel r d x => rfl, by decide, by decide⟩

/-- C10: a replacer argument that is neither a function nor an array (a
string, a number, a plain object) is accepted and produces exactly the
same output as passing no replacer at all, at every fuel and for every
root: the constructor normalizes it to the identity transform. -/
theorem claim_C10 :
    ∀ (fuel : Nat) (v : Value) (s : String) (n : Int) (ps : List (String × Value)),
      jstreamOutput fuel v (.strRep s) = jstreamOutput fuel v .noRep ∧
      jstreamOutput fuel v (.numRep n) = jstreamOutput fuel v .noRep ∧
      jstreamOutput fuel v (.objRep ps) = jstreamOutput fuel v .noRep := by
  intro fuel v s n ps
  exact ⟨rfl, rfl, rfl⟩

/-- C9: under a transform-function replacer the member computation of the
source coincides with the spec's description (one root call with an
absent key whose result becomes the working value, then one call per
member with the stringified key or index, results replacing members), and
the doubling replacer yields the spec's example outputs on an object and
on an array; a root-substituting transform and a key-recording transform
exhibit the root call and the per-member keys concretely. -/
theorem claim_C9 :
    (∀ (g : Option String → Value → Value) (value : Value),
        keyedWorking (.fnRep g) value = applyKeyedSpec g value) ∧
    (∀ (g : Option String → Value → Value) (es : ValueList),
        seqWorking g es = applySequenceSpec g es) ∧
    optJoin (jstreamOutput 3 (.vobj (.cons "a" (.vnum 1) (.cons "b" (.vnum 2) .nil)))
        (.fnRep doubleFn)) = some "\x7b\"a\":2,\"b\":4\x7d" ∧
    optJoin (jstreamOutput 3 (.varr (.cons (.vnum 1) (.cons (.vnum 2) (.cons (.vnum 3) .nil))))
        (.fnRep doubleFn)) = some "[2,4,6]" ∧
    optJoin (jstreamOutput 3 (.vobj (.cons "a" (.vnum 1) .nil)) (.fnRep rootSwapObj)) =
      some "\x7b\"z\":9\x7d" ∧
    optJoin (jstreamOutput 3 (.varr (.cons (.vnum 1) (.cons (.vnum 2) (.cons (.vnum 3) .nil))))
        (.fnRep rootSwapArr)) = some "[7]" ∧
    optJoin (jstreamOutput 3 (.varr (.cons (.vnum 10) (.cons (.vnum 20) .nil)))
        (.fnRep recordKeyFn)) = some "[\"0\",\"1\"]" ∧
    optJoin (jstreamOutput 3 (.vobj (.cons "a" (.vnum 1) .nil)) (.fnRep recordKeyFn)) =
      some "\x7b\"a\":\"a\"\x7d" := by
  refine ⟨fun g value => rfl, fun g es => rfl, by decide, by decide, by decide, by decide,
    by decide, by decide⟩

theorem jsonGenerator_succ_varr (fuel : Nat) (r : Replacer) (es : ValueList) :
    jsonGenerator (fuel + 1) r (.varr es) = arrayGenerator (jsonGenerator fuel r) r es := rfl

theorem jsonGenerator_succ_vobj (fuel : Nat) (r : Replacer) (ps : PropList) :
    jsonGenerator (fuel + 1) r (.vobj ps) =
      objectGenerator (jsonGenerator fuel r) r (.vobj ps) := rfl

theorem jsonGenerator_succ_vhook (fuel : Nat) (r : Replacer) (h : Value) (ps : PropList) :
    jsonGenerator (fuel + 1) r (.vhook h ps) =
      objectGenerator (jsonGenerator fuel r) r (.vhook h ps) := rfl

theorem jsonGenerator_succ_vitems (fuel : Nat) (r : Replacer) (items : ValueList)
    (failure : Option String) :
    jsonGenerator (fuel + 1) r (.vitems items failure) =
      itemsOutput (jsonGenerator fuel r) items failure := rfl

/-- C7 counterexample: under a transform-function replacer mapping
undefined members to the number 42, an undefined element of a sequence
serializes as 42 rather than null, and an undefined-valued key of an
object is retained rather than omitted; the claim's "under every
ReplacerSpec" fails on the transform-function form. -/
theorem claim_C7_counterexample :
    optJoin (jstreamOutput 3 (.varr (.cons .vundef .nil)) (.fnRep undefTo42)) = some "[42]" ∧
    optJoin (jstreamOutput 3 (.varr (.cons .vundef .nil)) (.fnRep undefTo42)) ≠ some "[null]" ∧
    optJoin (jstreamOutput 3 (.vobj (.cons "k" .vundef .nil)) (.fnRep undefTo42)) =
      some "\x7b\"k\":42\x7d" ∧
    optJoin (jstreamOutput 3 (.vobj (.cons "k" .vundef .nil)) (.fnRep undefTo42)) ≠
      some "\x7b\x7d" := by
  refine ⟨by decide, by decide, by decide, by decide⟩

/-- C7 amended: an undefined or FunctionLike value serializes to the empty
output when it is the root, under every replacer (the replacer is never
consulted for a primitive root); under the Identity and KeyAllowlist
replacers it serializes exactly as null would when it is a sequence
element, and its key is omitted entirely (the run equals the run on the
object without that key) when it is a member of a keyed value; under a
TransformFn replacer the null-substitution and omission are instead
decided by the transform's result for the member. -/
theorem claim_C7_amended :
    (∀ (fuel : Nat) (r : Replacer),
        optJoin (jsonGenerator (fuel + 1) r .vundef) = some "" ∧
        optJoin (jsonGenerator (fuel + 1) r .vfunc) = some "") ∧
    (∀ (fuel : Nat) (x : Value) (pre post : List Value) (ks : List String),
        absent x = true →
        jsonGenerator fuel identityRep (.varr (.ofL (pre ++ x :: post))) =
          jsonGenerator fuel identityRep (.varr (.ofL (pre ++ .vnull :: post))) ∧
        jsonGenerator fuel (.arrRep ks) (.varr (.ofL (pre ++ x :: post))) =
          jsonGenerator fuel (.arrRep ks) (.varr (.ofL (pre ++ .vnull :: post)))) ∧
    (∀ (fuel : Nat) (x : Value) (k : String) (pre post : List (String × Value)) (ks : List String),
        absent x = true →
        jsonGenerator fuel identityRep (.vobj (.ofL (pre ++ (k, x) :: post))) =
          jsonGenerator fuel identityRep (.vobj (.ofL (pre ++ post))) ∧
        jsonGenerator fuel (.arrRep ks) (.vobj (.ofL (pre ++ (k, x) :: post))) =
          jsonGenerator fuel (.arrRep ks) (.vobj (.ofL (pre ++ post)))) := by
  refine ⟨?_, ?_, ?_⟩
  · intro fuel r
    constructor
    · show optJoin (some (.ok [""])) = some ""
      simp [optJoin, joinAll, String.append_empty_right]
    · show optJoin (some (.ok [""])) = some ""
      simp [optJoin, joinAll, String.append_empty_right]
  · intro fuel x pre post ks hx
    match fuel with
    | 0 => exact ⟨rfl, rfl⟩
    | f + 1 =>
      have hmap : (pre ++ x :: post).map nullIfAbsent =
          (pre ++ Value.vnull :: post).map nullIfAbsent := by
        rw [List.map_append, List.map_append, List.map_cons, List.map_cons]
        simp [nullIfAbsent, hx]
      constructor
      · rw [jsonGenerator_succ_varr, jsonGenerator_succ_varr, arrayGenerator_identity,
          arrayGenerator_identity, valueList_toL_ofL, valueList_toL_ofL, hmap]
      · rw [jsonGenerator_succ_varr, jsonGenerator_succ_varr, arrayGenerator_arrRep,
          arrayGenerator_arrRep, valueList_toL_ofL, valueList_toL_ofL, hmap]
  · intro fuel x k pre post ks hx
    match fuel with
    | 0 => exact ⟨rfl, rfl⟩
    | f + 1 =>
      constructor
      · rw [jsonGenerator_succ_vobj, jsonGenerator_succ_vobj]
        simp only [objectGenerator, keyedWorking_identity, assignProps, propList_toL_ofL]
        rw [List.filterMap_append, List.filterMap_append, List.filterMap_cons]
        simp [hx]
      · rw [jsonGenerator_succ_vobj, jsonGenerator_succ_vobj]
        simp only [objectGenerator, keyedWorking, assignProps, propList_toL_ofL]
        rw [List.filter_append, List.filter_append, List.filter_cons]
        simp [hx]

/-- C7 witness: the amended statement instantiated at concrete inputs. -/
theorem claim_C7_witness :
    absent Value.vundef = true ∧
    jsonGenerator 3 identityRep (.varr (.ofL ([.vnum 1] ++ .vundef :: [.vnum 2]))) =
      jsonGenerator 3 identityRep (.varr (.ofL ([.vnum 1] ++ .vnull :: [.vnum 2]))) ∧
    jsonGenerator 3 identityRep (.vobj (.ofL ([("a", .vnum 1)] ++ ("b", .vundef) :: []))) =
      jsonGenerator 3 identityRep (.vobj (.ofL ([("a", .vnum 1)] ++ []))) := by
  refine ⟨by decide,
    (claim_C7_amended.2.1 3 .vundef [.vnum 1] [.vnum 2] [] (by decide)).1,
    (claim_C7_amended.2.2 3 .vundef ("b") [("a", .vnum 1)] [] [] (by decide)).1⟩

/-- C4: an ItemSource embedded anywhere in the tree is serialized as a
JSON array: for every replacer and item list, the concatenated output is
the bracketed comma-join of the serializations of the items in arrival
order, each item independently passed through null-mapping of absent
items, toJSON resolution and the same replacer; an ItemSource emitting 1,
true and an empty object then ending serializes to the spec's example. -/
theorem claim_C4 :
    (∀ (fuel : Nat) (r : Replacer) (items : ValueList),
        optJoin (jsonGenerator (fuel + 1) r (.vitems items none)) =
          (mapO (fun x => optJoin (jsonGenerator fuel r (toJSON (nullIfAbsent x))))
              items.toL).map
            fun ss => "[" ++ sepJoin ss ++ "]") ∧
    optJoin (jstreamOutput 3
        (.vitems (.cons (.vnum 1) (.cons (.vbool true) (.cons (.vobj .nil) .nil))) none)
        .noRep) = some "[1,true,\x7b\x7d]" := by
  refine ⟨?_, by decide⟩
  intro fuel r items
  rw [jsonGenerator_succ_vitems]
  show optJoin ((serSeq (itemStep (jsonGenerator fuel r)) items.toL).map fun o =>
      SerOut.app (.ok ["["]) (SerOut.app o (.ok ["]"]))) = _
  rw [optJoin_brackets,
    serSeq_join (itemStep (jsonGenerator fuel r))
      (fun x => optJoin (jsonGenerator fuel r (toJSON (nullIfAbsent x)))) items.toL
      (fun x _ => rfl),
    Option.map_map]
  rfl

/-- C5: every run's transport trace carries exactly one terminal signal as
its last event (end-of-output or the error signal, mutually exclusive),
with nothing but fragments before it, so an error is surfaced once, no
fragment follows it, and no end-of-output is emitted on a failed run; and
once a failing PendingValue is reached in a sequence the run's outcome
does not depend on the elements after it (no further siblings are
serialized, no recovery occurs). -/
theorem claim_C5 :
    (∀ (fuel : Nat) (r : Replacer) (v : Value) (evs : List OutEvent),
        eventsF fuel r v = some evs →
        (∃ t, evs.getLast? = some t ∧ (isErrorEv t || isEndEv t) = true) ∧
        ∀ e ∈ evs.dropLast, isErrorEv e = false ∧ isEndEv e = false) ∧
    (∀ (fuel : Nat) (pre : List Value) (m : String) (r1 r2 : List Value),
        jsonGenerator fuel identityRep (.varr (.ofL (pre ++ .vpromiseErr 0 m :: r1))) =
          jsonGenerator fuel identityRep (.varr (.ofL (pre ++ .vpromiseErr 0 m :: r2)))) := by
  constructor
  · intro fuel r v evs h
    rw [eventsF] at h
    match ho : jsonGenerator fuel r v with
    | none =>
      rw [ho] at h
      exact absurd h (by simp)
    | some o =>
      rw [ho] at h
      obtain rfl : eventsOf o = evs := Option.some.inj h
      match o with
      | .ok fs =>
        constructor
        · exact ⟨.endOfOutput, by rw [eventsOf, List.getLast?_concat], rfl⟩
        · intro e he
          rw [eventsOf, List.dropLast_concat] at he
          obtain ⟨s, _, hs⟩ := List.mem_map.mp he
          subst hs
          exact ⟨rfl, rfl⟩
      | .err fs m =>
        constructor
        · exact ⟨.errorSignal m, by rw [eventsOf, List.getLast?_concat], rfl⟩
        · intro e he
          rw [eventsOf, List.dropLast_concat] at he
          obtain ⟨s, _, hs⟩ := List.mem_map.mp he
          subst hs
          exact ⟨rfl, rfl⟩
  · intro fuel pre m r1 r2
    match fuel with
    | 0 => rfl
    | f + 1 =>
      rw [jsonGenerator_succ_varr, jsonGenerator_succ_varr, arrayGenerator_identity,
        arrayGenerator_identity, valueList_toL_ofL, valueList_toL_ofL,
        List.map_append, List.map_append, List.map_cons, List.map_cons]
      have hstop := serSeq_stop (elemStep (jsonGenerator f identityRep))
        (nullIfAbsent (.vpromiseErr 0 m)) ?_ (pre.map nullIfAbsent)
        (r1.map nullIfAbsent) (r2.map nullIfAbsent)
      · rw [hstop]
      · show jsonGenerator f identityRep (toJSON (nullIfAbsent (.vpromiseErr 0 m))) = none ∨ _
        match f with
        | 0 => exact Or.inl rfl
        | f2 + 1 => exact Or.inr ⟨[], m, rfl⟩

/-- C5 witness: the trace-shape statement instantiated on a concrete run
in which the second array element is a rejecting PendingValue: the trace
is three fragments followed by exactly the error signal. -/
theorem claim_C5_witness :
    eventsF 3 identityRep (.varr (.ofL [.vnum 1, .vpromiseErr 0 "boom", .vnum 2])) =
      some [.frag "[", .frag "1", .frag ",", .errorSignal "boom"] ∧
    (∃ t, ([OutEvent.frag "[", .frag "1", .frag ",", .errorSignal "boom"]).getLast? = some t ∧
        (isErrorEv t || isEndEv t) = true) ∧
    ∀ e ∈ ([OutEvent.frag "[", .frag "1", .frag ",", .errorSignal "boom"]).dropLast,
      isErrorEv e = false ∧ isEndEv e = false := by
  refine ⟨by decide, ?_, ?_⟩
  · exact (claim_C5.1 3 identityRep (.varr (.ofL [.vnum 1, .vpromiseErr 0 "boom", .vnum 2]))
      [.frag "[", .frag "1", .frag ",", .errorSignal "boom"] (by decide)).1
  · exact (claim_C5.1 3 identityRep (.varr (.ofL [.vnum 1, .vpromiseErr 0 "boom", .vnum 2]))
      [.frag "[", .frag "1", .frag ",", .errorSignal "boom"] (by decide)).2

theorem absent_stripDelay (v : Value) : absent (stripDelay v) = absent v := by
  cases v <;> rfl

theorem toJSON_stripDelay (v : Value) : toJSON (stripDelay v) = stripDelay (toJSON v) := by
  cases v <;> rfl

theorem nullIfAbsent_stripDelay (v : Value) :
    nullIfAbsent (stripDelay v) = stripDelay (nullIfAbsent v) := by
  rw [nullIfAbsent, nullIfAbsent, absent_stripDelay]
  cases habs : absent v
  · simp [habs]
  · simp [habs, stripDelay]

theorem stripDelayL_toL : ∀ es : ValueList, (stripDelayL es).toL = es.toL.map stripDelay
  | .nil => rfl
  | .cons v vs => by simp [stripDelayL, ValueList.toL, stripDelayL_toL vs]

theorem stripDelayP_toL :
    ∀ ps : PropList, (stripDelayP ps).toL = ps.toL.map fun kx => (kx.1, stripDelay kx.2)
  | .nil => rfl
  | .cons k v ps => by simp [stripDelayP, PropList.toL, stripDelayP_toL ps]

theorem assignProps_stripDelay (v : Value) :
    assignProps (stripDelay v) = (assignProps v).map fun kx => (kx.1, stripDelay kx.2) := by
  cases v with
  | vobj ps => exact stripDelayP_toL ps
  | vhook h ps =>
    show (stripDelayP ps).toL ++ [("toJSON", .vfunc)] =
      (ps.toL ++ [("toJSON", Value.vfunc)]).map fun kx => (kx.1, stripDelay kx.2)
    rw [stripDelayP_toL, List.map_append]
    rfl
  | varr es =>
    show (stripDelayL es).toL.mapIdx (fun i x => (toString i, x)) = _
    rw [stripDelayL_toL]
    exact mapIdx_comm es.toL stripDelay (fun i x => (toString i, x))
      (fun i x => (toString i, x)) (fun kx => (kx.1, stripDelay kx.2)) (fun i x => rfl)
  | vnum n => rfl
  | vnan => rfl
  | vstr s => rfl
  | vbool b => rfl
  | vnull => rfl
  | vundef => rfl
  | vfunc => rfl
  | vpromiseOk d x => rfl
  | vpromiseErr d m => rfl
  | vtext chunks failure => rfl
  | vitems items failure => rfl

theorem keyedWorking_stripDelay (r : Replacer) (hb : replacerTimeBlind r) (value : Value) :
    keyedWorking r (stripDelay value) =
      (keyedWorking r value).map fun kx => (kx.1, stripDelay kx.2) := by
  match r with
  | .fnRep g =>
    show (assignProps (g none (stripDelay value))).filterMap
        (fun kx => let y := g (some kx.1) kx.2; if absent y then none else some (kx.1, y)) =
      ((assignProps (g none value)).filterMap
        (fun kx => let y := g (some kx.1) kx.2; if absent y then none else some (kx.1, y))).map
        fun kx => (kx.1, stripDelay kx.2)
    rw [hb none value, assignProps_stripDelay, List.filterMap_map, List.map_filterMap]
    apply List.filterMap_congr
    intro kx _
    show (if absent (g (some kx.1) (stripDelay kx.2)) then none
        else some (kx.1, g (some kx.1) (stripDelay kx.2))) = _
    rw [hb (some kx.1) kx.2, absent_stripDelay]
    cases habs : absent (g (some kx.1) kx.2) <;> simp [habs]
  | .arrRep ks =>
    show (assignProps (stripDelay value)).filter
        (fun kx => !absent kx.2 && ks.contains kx.1) =
      ((assignProps value).filter (fun kx => !absent kx.2 && ks.contains kx.1)).map
        fun kx => (kx.1, stripDelay kx.2)
    rw [assignProps_stripDelay, List.filter_map]
    congr 1
    apply List.filter_congr
    intro kx _
    show (!absent (stripDelay kx.2) && ks.contains kx.1) = _
    rw [absent_stripDelay]

theorem seqWorking_stripDelay (g : Option String → Value → Value)
    (hb : ∀ k v, g k (stripDelay v) = stripDelay (g k v)) (es : ValueList) :
    seqWorking g (stripDelayL es) = (seqWorking g es).map fun l => l.map stripDelay := by
  unfold seqWorking
  rw [show Value.varr (stripDelayL es) = stripDelay (.varr es) from rfl, hb none (.varr es)]
  match h0 : g none (.varr es) with
  | .varr ws =>
    show some ((stripDelayL ws).toL.mapIdx fun i x => nullIfAbsent (g (some (toString i)) x)) = _
    rw [stripDelayL_toL,
      mapIdx_comm ws.toL stripDelay (fun i x => nullIfAbsent (g (some (toString i)) x))
        (fun i x => nullIfAbsent (g (some (toString i)) x)) stripDelay
        (fun i x => by
          show nullIfAbsent (g (some (toString i)) (stripDelay x)) =
            stripDelay (nullIfAbsent (g (some (toString i)) x))
          rw [hb (some (toString i)) x, nullIfAbsent_stripDelay])]
    rfl
  | .vnum n => rfl
  | .vnan => rfl
  | .vstr s => rfl
  | .vbool b => rfl
  | .vnull => rfl
  | .vundef => rfl
  | .vfunc => rfl
  | .vobj ps => rfl
  | .vpromiseOk d x => rfl
  | .vpromiseErr d m => rfl
  | .vtext chunks failure => rfl
  | .vitems items failure => rfl
  | .vhook h ps => rfl

theorem jsonGenerator_stripDelay :
    ∀ (fuel : Nat) (r : Replacer), replacerTimeBlind r →
      ∀ v, jsonGenerator fuel r v = jsonGenerator fuel r (stripDelay v) := by
  intro fuel
  induction fuel with
  | zero => intro r hb v; rfl
  | succ f ih =>
    intro r hb v
    have hstep : ∀ x, elemStep (jsonGenerator f r) (stripDelay x) =
        elemStep (jsonGenerator f r) x := by
      intro x
      show jsonGenerator f r (toJSON (stripDelay x)) = jsonGenerator f r (toJSON x)
      rw [toJSON_stripDelay, ← ih r hb (toJSON x)]
    cases v with
    | vnum n => rfl
    | vnan => rfl
    | vstr s => rfl
    | vbool b => rfl
    | vnull => rfl
    | vundef => rfl
    | vfunc => rfl
    | vtext chunks failure => rfl
    | vpromiseErr d m => rfl
    | vpromiseOk d x => exact ih r hb x
    | vitems items failure =>
      show itemsOutput (jsonGenerator f r) items failure =
        itemsOutput (jsonGenerator f r) (stripDelayL items) failure
      unfold itemsOutput
      rw [stripDelayL_toL, serSeq_map (itemStep (jsonGenerator f r)) stripDelay items.toL]
      rw [serSeq_congr (itemStep (jsonGenerator f r))
        (fun x => itemStep (jsonGenerator f r) (stripDelay x)) items.toL ?hpt]
      case hpt =>
        intro x _
        show jsonGenerator f r (toJSON (nullIfAbsent x)) =
          jsonGenerator f r (toJSON (nullIfAbsent (stripDelay x)))
        rw [nullIfAbsent_stripDelay, toJSON_stripDelay]
        exact ih r hb (toJSON (nullIfAbsent x))
    | varr es =>
      rw [show stripDelay (.varr es) = Value.varr (stripDelayL es) from rfl,
        jsonGenerator_succ_varr, jsonGenerator_succ_varr]
      cases r with
      | arrRep ks =>
        rw [arrayGenerator_arrRep, arrayGenerator_arrRep, stripDelayL_toL]
        have hml : (es.toL.map stripDelay).map nullIfAbsent =
            (es.toL.map nullIfAbsent).map stripDelay := by
          rw [List.map_map, List.map_map]
          apply List.map_congr_left
          intro x _
          exact nullIfAbsent_stripDelay x
        rw [hml,
          serSeq_map (elemStep (jsonGenerator f (.arrRep ks))) stripDelay
            (es.toL.map nullIfAbsent)]
        rw [serSeq_congr (fun x => elemStep (jsonGenerator f (.arrRep ks)) (stripDelay x))
          (elemStep (jsonGenerator f (.arrRep ks))) (es.toL.map nullIfAbsent)
          (fun x _ => hstep x)]
      | fnRep g =>
        show (match seqWorking g es with
          | none => some (SerOut.err [] "TypeError: arr.map is not a function")
          | some arr =>
            (serSeq (elemStep (jsonGenerator f (.fnRep g))) arr).map fun o =>
              SerOut.app (.ok ["["]) (SerOut.app o (.ok ["]"]))) =
          (match seqWorking g (stripDelayL es) with
          | none => some (SerOut.err [] "TypeError: arr.map is not a function")
          | some arr =>
            (serSeq (elemStep (jsonGenerator f (.fnRep g))) arr).map fun o =>
              SerOut.app (.ok ["["]) (SerOut.app o (.ok ["]"])))
        rw [seqWorking_stripDelay g hb es]
        match h0 : seqWorking g es with
        | none => rfl
        | some arr =>
          show (serSeq (elemStep (jsonGenerator f (.fnRep g))) arr).map _ =
            (serSeq (elemStep (jsonGenerator f (.fnRep g))) (arr.map stripDelay)).map _
          rw [serSeq_map (elemStep (jsonGenerator f (.fnRep g))) stripDelay arr]
          rw [serSeq_congr (elemStep (jsonGenerator f (.fnRep g)))
            (fun x => elemStep (jsonGenerator f (.fnRep g)) (stripDelay x)) arr
            (fun x _ => (hstep x).symm)]
    | vobj ps =>
      rw [show stripDelay (.vobj ps) = Value.vobj (stripDelayP ps) from rfl,
        jsonGenerator_succ_vobj, jsonGenerator_succ_vobj]
      unfold objectGenerator
      rw [show Value.vobj (stripDelayP ps) = stripDelay (.vobj ps) from rfl,
        keyedWorking_stripDelay r hb (.vobj ps),
        serSeq_map (pairStep (jsonGenerator f r)) (fun kx => (kx.1, stripDelay kx.2))
          (keyedWorking r (.vobj ps))]
      rw [serSeq_congr (pairStep (jsonGenerator f r))
        (fun kx => pairStep (jsonGenerator f r) ((fun kx => (kx.1, stripDelay kx.2)) kx))
        (keyedWorking r (.vobj ps)) ?hpt2]
      case hpt2 =>
        intro kx _
        show (jsonGenerator f r (toJSON kx.2)).map _ =
          (jsonGenerator f r (toJSON (stripDelay kx.2))).map _
        rw [toJSON_stripDelay, ← ih r hb (toJSON kx.2)]
    | vhook h ps =>
      rw [show stripDelay (.vhook h ps) = Value.vhook (stripDelay h) (stripDelayP ps) from rfl,
        jsonGenerator_succ_vhook, jsonGenerator_succ_vhook]
      unfold objectGenerator
      rw [show Value.vhook (stripDelay h) (stripDelayP ps) = stripDelay (.vhook h ps) from rfl,
        keyedWorking_stripDelay r hb (.vhook h ps),
        serSeq_map (pairStep (jsonGenerator f r)) (fun kx => (kx.1, stripDelay kx.2))
          (keyedWorking r (.vhook h ps))]
      rw [serSeq_congr (pairStep (jsonGenerator f r))
        (fun kx => pairStep (jsonGenerator f r) ((fun kx => (kx.1, stripDelay kx.2)) kx))
        (keyedWorking r (.vhook h ps)) ?hpt3]
      case hpt3 =>
        intro kx _
        show (jsonGenerator f r (toJSON kx.2)).map _ =
          (jsonGenerator f r (toJSON (stripDelay kx.2))).map _
        rw [toJSON_stripDelay, ← ih r hb (toJSON kx.2)]

/-- C6: the output is a deterministic function of the root's structure and
the replacer alone: for every timing-blind replacer (every replacer a
caller can write, since resolution timing is not data), two roots equal
after erasing the timing tags of their pending values produce identical
outputs at every fuel — so swapping a fast-resolving pending sibling with
a slow one never changes fragment order, and structurally equal roots give
byte-identical output. -/
theorem claim_C6 :
    ∀ (fuel : Nat) (r : Replacer) (v w : Value), replacerTimeBlind r →
      stripDelay v = stripDelay w → jsonGenerator fuel r v = jsonGenerator fuel r w := by
  intro fuel r v w hb hvw
  rw [jsonGenerator_stripDelay fuel r hb v, jsonGenerator_stripDelay fuel r hb w, hvw]

/-- C6 witness: two sibling pending values with swapped delays produce the
same run, whose concatenation keeps the structural order fast-then-slow. -/
theorem claim_C6_witness :
    stripDelay (.varr (.ofL [.vpromiseOk 0 (.vstr "fast"), .vpromiseOk 100 (.vstr "slow")])) =
      stripDelay (.varr (.ofL [.vpromiseOk 100 (.vstr "fast"), .vpromiseOk 0 (.vstr "slow")])) ∧
    jsonGenerator 4 identityRep
        (.varr (.ofL [.vpromiseOk 0 (.vstr "fast"), .vpromiseOk 100 (.vstr "slow")])) =
      jsonGenerator 4 identityRep
        (.varr (.ofL [.vpromiseOk 100 (.vstr "fast"), .vpromiseOk 0 (.vstr "slow")])) ∧
    optJoin (jsonGenerator 4 identityRep
        (.varr (.ofL [.vpromiseOk 0 (.vstr "fast"), .vpromiseOk 100 (.vstr "slow")]))) =
      some "[\"fast\",\"slow\"]" := by
  refine ⟨by decide, claim_C6 4 identityRep _ _ (fun k v => rfl) (by decide), by decide⟩

theorem absent_allowFilter (ks : List String) (v : Value) :
    absent (allowFilter ks v) = absent v := by
  cases v <;> rfl

theorem toJSON_allowFilter (ks : List String) (v : Value) :
    toJSON (allowFilter ks v) = allowFilter ks (toJSON v) := by
  cases v <;> rfl

theorem nullIfAbsent_allowFilter (ks : List String) (v : Value) :
    nullIfAbsent (allowFilter ks v) = allowFilter ks (nullIfAbsent v) := by
  rw [nullIfAbsent, nullIfAbsent, absent_allowFilter]
  cases habs : absent v
  · simp [habs]
  · simp [habs, allowFilter]

theorem allowFilterL_toL (ks : List String) :
    ∀ es : ValueList, (allowFilterL ks es).toL = es.toL.map (allowFilter ks)
  | .nil => rfl
  | .cons v vs => by simp [allowFilterL, ValueList.toL, allowFilterL_toL ks vs]

theorem allowFilterP_toL (ks : List String) :
    ∀ ps : PropList,
      (allowFilterP ks ps).toL =
        (ps.toL.filter fun kx => !absent kx.2 && ks.contains kx.1).map
          fun kx => (kx.1, allowFilter ks kx.2)
  | .nil => rfl
  | .cons k v ps => by
    show (if !absent v && ks.contains k then
        PropList.cons k (allowFilter ks v) (allowFilterP ks ps) else allowFilterP ks ps).toL = _
    rw [show (PropList.cons k v ps).toL = (k, v) :: ps.toL from rfl, List.filter_cons]
    cases hc : (!absent v && ks.contains k)
    · simp only [hc, Bool.false_eq_true, if_false]
      exact allowFilterP_toL ks ps
    · simp only [hc, if_true, PropList.toL, List.map_cons]
      rw [allowFilterP_toL ks ps]

theorem filterMap_keep_of_no_absent :
    ∀ l : List (String × Value), (∀ kx ∈ l, absent kx.2 = false) →
      l.filterMap (fun kx => if absent kx.2 then none else some kx) = l := by
  intro l
  induction l with
  | nil => intro _; rfl
  | cons kx t ih =>
    intro h
    rw [List.filterMap_cons]
    have hkx : absent kx.2 = false := h kx (List.mem_cons_self kx t)
    simp only [hkx, Bool.false_eq_true, if_false]
    rw [ih (fun y hy => h y (List.mem_cons_of_mem kx hy))]

theorem keep_filtered_allowFilter (ks : List String) (l : List (String × Value)) :
    ((l.filter fun kx => !absent kx.2 && ks.contains kx.1).map
        fun kx => (kx.1, allowFilter ks kx.2)).filterMap
      (fun kx => if absent kx.2 then none else some kx) =
    (l.filter fun kx => !absent kx.2 && ks.contains kx.1).map
      fun kx => (kx.1, allowFilter ks kx.2) := by
  apply filterMap_keep_of_no_absent
  intro kx hkx
  obtain ⟨ky, hky, rfl⟩ := List.mem_map.mp hkx
  show absent (allowFilter ks ky.2) = false
  rw [absent_allowFilter]
  have := (List.mem_filter.mp hky).2
  cases habs : absent ky.2
  · rfl
  · rw [habs] at this; simp at this

theorem jsonGenerator_allowFilter :
    ∀ (fuel : Nat) (ks : List String) (v : Value),
      jsonGenerator fuel (.arrRep ks) v = jsonGenerator fuel identityRep (allowFilter ks v) := by
  intro fuel
  induction fuel with
  | zero => intro ks v; rfl
  | succ f ih =>
    intro ks v
    have hpair : ∀ kx : String × Value,
        pairStep (jsonGenerator f (.arrRep ks)) kx =
          pairStep (jsonGenerator f identityRep) ((fun kx => (kx.1, allowFilter ks kx.2)) kx) := by
      intro kx
      show (jsonGenerator f (.arrRep ks) (toJSON kx.2)).map _ =
        (jsonGenerator f identityRep (toJSON (allowFilter ks kx.2))).map _
      rw [toJSON_allowFilter, ← ih ks (toJSON kx.2)]
    cases v with
    | vnum n => rfl
    | vnan => rfl
    | vstr s => rfl
    | vbool b => rfl
    | vnull => rfl
    | vundef => rfl
    | vfunc => rfl
    | vtext chunks failure => rfl
    | vpromiseErr d m => rfl
    | vpromiseOk d x => exact ih ks x
    | vitems items failure =>
      show itemsOutput (jsonGenerator f (.arrRep ks)) items failure =
        itemsOutput (jsonGenerator f identityRep) (allowFilterL ks items) failure
      unfold itemsOutput
      rw [allowFilterL_toL,
        serSeq_map (itemStep (jsonGenerator f identityRep)) (allowFilter ks) items.toL]
      rw [serSeq_congr (itemStep (jsonGenerator f (.arrRep ks)))
        (fun x => itemStep (jsonGenerator f identityRep) (allowFilter ks x)) items.toL ?hit]
      case hit =>
        intro x _
        show jsonGenerator f (.arrRep ks) (toJSON (nullIfAbsent x)) =
          jsonGenerator f identityRep (toJSON (nullIfAbsent (allowFilter ks x)))
        rw [nullIfAbsent_allowFilter, toJSON_allowFilter]
        exact ih ks (toJSON (nullIfAbsent x))
    | varr es =>
      rw [show allowFilter ks (.varr es) = Value.varr (allowFilterL ks es) from rfl,
        jsonGenerator_succ_varr, jsonGenerator_succ_varr, arrayGenerator_arrRep,
        arrayGenerator_identity, allowFilterL_toL]
      have hml : (es.toL.map (allowFilter ks)).map nullIfAbsent =
          (es.toL.map nullIfAbsent).map (allowFilter ks) := by
        rw [List.map_map, List.map_map]
        apply List.map_congr_left
        intro x _
        exact nullIfAbsent_allowFilter ks x
      rw [hml,
        serSeq_map (elemStep (jsonGenerator f identityRep)) (allowFilter ks)
          (es.toL.map nullIfAbsent)]
      rw [serSeq_congr (elemStep (jsonGenerator f (.arrRep ks)))
        (fun x => elemStep (jsonGenerator f identityRep) (allowFilter ks x))
        (es.toL.map nullIfAbsent) ?hel]
      case hel =>
        intro x _
        show jsonGenerator f (.arrRep ks) (toJSON x) =
          jsonGenerator f identityRep (toJSON (allowFilter ks x))
        rw [toJSON_allowFilter]
        exact ih ks (toJSON x)
    | vobj ps =>
      rw [show allowFilter ks (.vobj ps) = Value.vobj (allowFilterP ks ps) from rfl,
        jsonGenerator_succ_vobj, jsonGenerator_succ_vobj]
      unfold objectGenerator
      rw [keyedWorking_identity,
        show assignProps (Value.vobj (allowFilterP ks ps)) = (allowFilterP ks ps).toL from rfl,
        allowFilterP_toL, keep_filtered_allowFilter,
        show keyedWorking (.arrRep ks) (.vobj ps) =
          ps.toL.filter (fun kx => !absent kx.2 && ks.contains kx.1) from rfl,
        serSeq_map (pairStep (jsonGenerator f identityRep))
          (fun kx => (kx.1, allowFilter ks kx.2))
          (ps.toL.filter fun kx => !absent kx.2 && ks.contains kx.1)]
      rw [serSeq_congr (pairStep (jsonGenerator f (.arrRep ks)))
        (fun kx => pairStep (jsonGenerator f identityRep)
          ((fun kx => (kx.1, allowFilter ks kx.2)) kx))
        (ps.toL.filter fun kx => !absent kx.2 && ks.contains kx.1)
        (fun kx _ => hpair kx)]
    | vhook h ps =>
      rw [show allowFilter ks (.vhook h ps) =
          Value.vhook (allowFilter ks h) (allowFilterP ks ps) from rfl,
        jsonGenerator_succ_vhook, jsonGenerator_succ_vhook]
      unfold objectGenerator
      rw [keyedWorking_identity,
        show assignProps (Value.vhook (allowFilter ks h) (allowFilterP ks ps)) =
          (allowFilterP ks ps).toL ++ [("toJSON", Value.vfunc)] from rfl,
        List.filterMap_append,
        show ([(("toJSON", Value.vfunc) : String × Value)].filterMap
          (fun kx => if absent kx.2 then none else some kx)) = [] from rfl,
        List.append_nil, allowFilterP_toL, keep_filtered_allowFilter,
        show keyedWorking (.arrRep ks) (.vhook h ps) =
          (ps.toL ++ [("toJSON", Value.vfunc)]).filter
            (fun kx => !absent kx.2 && ks.contains kx.1) from rfl,
        List.filter_append,
        show ([(("toJSON", Value.vfunc) : String × Value)].filter
          (fun kx => !absent kx.2 && ks.contains kx.1)) = [] from rfl,
        List.append_nil,
        serSeq_map (pairStep (jsonGenerator f identityRep))
          (fun kx => (kx.1, allowFilter ks kx.2))
          (ps.toL.filter fun kx => !absent kx.2 && ks.contains kx.1)]
      rw [serSeq_congr (pairStep (jsonGenerator f (.arrRep ks)))
        (fun kx => pairStep (jsonGenerator f identityRep)
          ((fun kx => (kx.1, allowFilter ks kx.2)) kx))
        (ps.toL.filter fun kx => !absent kx.2 && ks.contains kx.1)
        (fun kx _ => hpair kx)]

/-- C8: serializing any value under a key-allowlist replacer equals
serializing the allowlist-filtered value (every Keyed level retaining
exactly the listed keys with non-absent raw values, in original order,
sequences untouched) under the identity replacer — at every fuel, for
every allowlist and every value; and the spec's concrete example holds. -/
theorem claim_C8 :
    (∀ (fuel : Nat) (ks : List String) (v : Value),
        jsonGenerator fuel (.arrRep ks) v =
          jsonGenerator fuel identityRep (allowFilter ks v)) ∧
    optJoin (jstreamOutput 4
        (.vobj (.ofL [("a", .vnum 1), ("b", .vobj (.ofL [("a", .vnum 2), ("c", .vnum 3)])),
          ("c", .vnum 4)]))
        (.arrRep ["a", "b"])) =
      some "\x7b\"a\":1,\"b\":\x7b\"a\":2\x7d\x7d" := by
  exact ⟨jsonGenerator_allowFilter, by decide⟩

theorem absent_of_repr : ∀ (fuel : Nat) (x : Value),
    jsonRepresentable fuel x = true → absent x = false := by
  intro fuel x h
  match fuel, x with
  | 0, _ => exact absurd h (by rw [jsonRepresentable]; simp)
  | _ + 1, .vnum n => rfl
  | _ + 1, .vnan => rfl
  | _ + 1, .vstr s => rfl
  | _ + 1, .vbool b => rfl
  | _ + 1, .vnull => rfl
  | _ + 1, .varr es => rfl
  | _ + 1, .vobj ps => rfl
  | _ + 1, .vundef => exact absurd h (by simp [jsonRepresentable])
  | _ + 1, .vfunc => exact absurd h (by simp [jsonRepresentable])
  | _ + 1, .vpromiseOk d v => rfl
  | _ + 1, .vpromiseErr d m => rfl
  | _ + 1, .vtext chunks failure => rfl
  | _ + 1, .vitems items failure => rfl
  | _ + 1, .vhook hk ps => rfl

theorem toJSON_of_repr : ∀ (fuel : Nat) (x : Value),
    jsonRepresentable fuel x = true → toJSON x = x := by
  intro fuel x h
  match x with
  | .vhook hk ps =>
    match fuel with
    | 0 => exact absurd h (by simp [jsonRepresentable])
    | _ + 1 => exact absurd h (by simp [jsonRepresentable])
  | .vnum n => rfl
  | .vnan => rfl
  | .vstr s => rfl
  | .vbool b => rfl
  | .vnull => rfl
  | .vundef => rfl
  | .vfunc => rfl
  | .varr es => rfl
  | .vobj ps => rfl
  | .vpromiseOk d v => rfl
  | .vpromiseErr d m => rfl
  | .vtext chunks failure => rfl
  | .vitems items failure => rfl

theorem stringify_agreement :
    ∀ (fuel : Nat) (v : Value), jsonRepresentable fuel v = true →
      keysEscapeFree fuel v = true →
      optJoin (jsonGenerator fuel identityRep v) = stringifyF fuel v := by
  intro fuel
  induction fuel with
  | zero =>
    intro v h1 _
    exact absurd h1 (by rw [jsonRepresentable]; simp)
  | succ f ih =>
    intro v h1 h2
    cases v with
    | vnum n =>
      show optJoin (some (SerOut.ok [toString n])) = some (toString n)
      simp [optJoin, joinAll, String.append_empty_right]
    | vnan =>
      show optJoin (some (SerOut.ok ["null"])) = some "null"
      simp [optJoin, joinAll, String.append_empty_right]
    | vstr s =>
      show optJoin (some (SerOut.ok [quoteJson s])) = some (quoteJson s)
      simp [optJoin, joinAll, String.append_empty_right]
    | vbool b =>
      show optJoin (some (SerOut.ok [if b then "true" else "false"])) =
        some (if b then "true" else "false")
      simp [optJoin, joinAll, String.append_empty_right]
    | vnull =>
      show optJoin (some (SerOut.ok ["null"])) = some "null"
      simp [optJoin, joinAll, String.append_empty_right]
    | vundef => exact absurd h1 (Bool.false_ne_true)
    | vfunc => exact absurd h1 (Bool.false_ne_true)
    | vpromiseOk d x => exact absurd h1 (Bool.false_ne_true)
    | vpromiseErr d m => exact absurd h1 (Bool.false_ne_true)
    | vtext chunks failure => exact absurd h1 (Bool.false_ne_true)
    | vitems items failure => exact absurd h1 (Bool.false_ne_true)
    | vhook hk ps => exact absurd h1 (Bool.false_ne_true)
    | varr es =>
      have hrep := (show es.toL.all (jsonRepresentable f) = true from h1)
      have hkeys := (show es.toL.all (keysEscapeFree f) = true from h2)
      rw [jsonGenerator_succ_varr, arrayGenerator_identity]
      have hid : es.toL.map nullIfAbsent = es.toL := by
        have hmap : es.toL.map nullIfAbsent = es.toL.map id := by
          apply List.map_congr_left
          intro x hx
          show nullIfAbsent x = x
          rw [nullIfAbsent, absent_of_repr f x (List.all_eq_true.mp hrep x hx)]
          simp
        rw [hmap, List.map_id]
      rw [hid, optJoin_brackets,
        serSeq_join (elemStep (jsonGenerator f identityRep)) (stringifyF f) es.toL ?hel,
        Option.map_map]
      case hel =>
        intro x hx
        show optJoin (jsonGenerator f identityRep (toJSON x)) = stringifyF f x
        rw [toJSON_of_repr f x (List.all_eq_true.mp hrep x hx)]
        exact ih x (List.all_eq_true.mp hrep x hx) (List.all_eq_true.mp hkeys x hx)
      rfl
    | vobj ps =>
      have hrep := (show ps.toL.all (fun kx => jsonRepresentable f kx.2) = true from h1)
      have hkeys :=
        (show ps.toL.all (fun kx => strEscFree kx.1 && keysEscapeFree f kx.2) = true from h2)
      rw [jsonGenerator_succ_vobj]
      unfold objectGenerator
      rw [keyedWorking_identity, show assignProps (Value.vobj ps) = ps.toL from rfl,
        filterMap_keep_of_no_absent ps.toL ?noabs]
      case noabs =>
        intro kx hkx
        exact absent_of_repr f kx.2 (by simpa using List.all_eq_true.mp hrep kx hkx)
      rw [optJoin_brackets,
        serSeq_join (pairStep (jsonGenerator f identityRep))
          (fun kx => (stringifyF f kx.2).map fun s => quoteJson kx.1 ++ ":" ++ s) ps.toL ?hpt,
        Option.map_map]
      case hpt =>
        intro kx hkx
        have hr : jsonRepresentable f kx.2 = true := by
          simpa using List.all_eq_true.mp hrep kx hkx
        have hk2 := List.all_eq_true.mp hkeys kx hkx
        have hkey : strEscFree kx.1 = true := by
          simp only [Bool.and_eq_true] at hk2
          exact hk2.1
        have hkv : keysEscapeFree f kx.2 = true := by
          simp only [Bool.and_eq_true] at hk2
          exact hk2.2
        show optJoin ((jsonGenerator f identityRep (toJSON kx.2)).map
            fun o => SerOut.app (.ok ["\"" ++ kx.1 ++ "\":"]) o) = _
        rw [toJSON_of_repr f kx.2 hr, optJoin_key, ih kx.2 hr hkv]
        show Option.map (fun s => "\"" ++ kx.1 ++ "\":" ++ s) (stringifyF f kx.2) =
          Option.map (fun s => quoteJson kx.1 ++ ":" ++ s) (stringifyF f kx.2)
        cases stringifyF f kx.2 with
        | none => rfl
        | some s =>
          show some (("\"" ++ kx.1 ++ "\":") ++ s) = some (quoteJson kx.1 ++ ":" ++ s)
          rw [quoteJson_escFree hkey]
          apply congrArg
          apply String.ext
          simp [String.data_append]
      rfl

/-- C1 counterexample: for the JSON-representable root whose single key
contains a quote character, the engine's concatenated output differs from
standard JSON.stringify, because objectGenerator emits keys raw and
unescaped while JSON.stringify escapes them. -/
theorem claim_C1_counterexample :
    jsonRepresentable 3 (.vobj (.ofL [("a\"", .vnum 1)])) = true ∧
    optJoin (jstreamOutput 3 (.vobj (.ofL [("a\"", .vnum 1)])) .noRep) =
      some "\x7b\"a\"\":1\x7d" ∧
    stringifyF 3 (.vobj (.ofL [("a\"", .vnum 1)])) = some "\x7b\"a\\\"\":1\x7d" ∧
    optJoin (jstreamOutput 3 (.vobj (.ofL [("a\"", .vnum 1)])) .noRep) ≠
      stringifyF 3 (.vobj (.ofL [("a\"", .vnum 1)])) := by
  refine ⟨by decide, by decide, by decide, by decide⟩

/-- C1 amended: for every JSON-representable root value all of whose keys
(at every nesting depth) contain no character that JSON string escaping
rewrites (no quote, backslash, or control character), the run with no
replacer concatenates to exactly the standard JSON.stringify serialization
of that value, at matching fuel. -/
theorem claim_C1_amended :
    ∀ (fuel : Nat) (v : Value), jsonRepresentable fuel v = true →
      keysEscapeFree fuel v = true →
      optJoin (jstreamOutput fuel v .noRep) = stringifyF fuel v := by
  intro fuel v h1 h2
  show optJoin (jsonGenerator fuel identityRep (toJSON v)) = stringifyF fuel v
  rw [toJSON_of_repr fuel v h1]
  exact stringify_agreement fuel v h1 h2

/-- C1 witness: the amended statement instantiated on the spec's example
root, whose serialization both sides compute concretely. -/
theorem claim_C1_witness :
    jsonRepresentable 4 (.vobj (.ofL [("x", .vnum 1),
        ("y", .varr (.ofL [.vbool true, .vnull]))])) = true ∧
    keysEscapeFree 4 (.vobj (.ofL [("x", .vnum 1),
        ("y", .varr (.ofL [.vbool true, .vnull]))])) = true ∧
    optJoin (jstreamOutput 4 (.vobj (.ofL [("x", .vnum 1),
        ("y", .varr (.ofL [.vbool true, .vnull]))])) .noRep) =
      stringifyF 4 (.vobj (.ofL [("x", .vnum 1),
        ("y", .varr (.ofL [.vbool true, .vnull]))])) ∧
    stringifyF 4 (.vobj (.ofL [("x", .vnum 1),
        ("y", .varr (.ofL [.vbool true, .vnull]))])) =
      some "\x7b\"x\":1,\"y\":[true,null]\x7d" := by
  refine ⟨by decide, by decide,
    claim_C1_amended 4 _ (by decide) (by decide), by decide⟩
